import Mathlib

/-!
Shallow embedding of the ankityping core (src/ankityping/core/typing_engine.py
and src/ankityping/core/stats.py), with theorems settling the frozen claims
about the typing state machine and the statistics engine.

Strings are modelled as `List Char`; the engine is a record mirroring the
Python object's attributes, and each method becomes a Lean function on that
record (mutation becomes explicit state passing).
-/

namespace AnkiTyping

/-- State of a character in the typing exercise (typing_engine.py, `CharacterState`). -/
inductive CharacterState
  | undefined
  | correct
  | current
  | error
deriving DecidableEq, Repr

/-- Information about a single character (typing_engine.py, `CharacterInfo`). -/
structure CharacterInfo where
  char : Char
  state : CharacterState
  position : Nat
deriving DecidableEq, Repr

/-- Result of a typing operation (typing_engine.py, `TypingResult`). -/
structure TypingResult where
  is_correct : Bool
  is_complete : Bool
  error_occurred : Bool
  typed_text : List Char
  current_position : Nat
  characters : List CharacterInfo
deriving DecidableEq, Repr

/-- The engine's mutable attributes (typing_engine.py, `TypingEngine.__init__`);
`characters` models the `_characters` list. -/
structure TypingEngine where
  target_text : List Char
  typed_text : List Char
  current_position : Nat
  error_count : Nat
  is_complete : Bool
  characters : List CharacterInfo
deriving DecidableEq, Repr

/-- The state of the slot at index `i` (out-of-range reads yield `undefined`;
the Python code always guards indices, so the default is never relied on). -/
def slotState (chars : List CharacterInfo) (i : Nat) : CharacterState :=
  match chars.get? i with
  | some ci => ci.state
  | none => CharacterState.undefined

/-- In-place update `chars[i].state = s` of the Python code; a no-op when `i`
is out of range (the code always guards with `i < len`). -/
def modifyState : List CharacterInfo → Nat → CharacterState → List CharacterInfo
  | [], _, _ => []
  | c :: cs, 0, s => { c with state := s } :: cs
  | c :: cs, n + 1, s => c :: modifyState cs n s

/-- Helper for `_initialize_characters`: builds the slots for the suffix of the
target starting at absolute index `i`. -/
def init_characters_aux : List Char → Nat → List CharacterInfo
  | [], _ => []
  | c :: cs, i =>
      { char := c,
        state := if i = 0 then CharacterState.current else CharacterState.undefined,
        position := i } :: init_characters_aux cs (i + 1)

/-- `TypingEngine._initialize_characters`: every slot `undefined` except slot 0
which is `current`. -/
def init_characters (target : List Char) : List CharacterInfo :=
  init_characters_aux target 0

namespace TypingEngine

/-- `TypingEngine._create_result`: snapshots the current state into a result. -/
def create_result (e : TypingEngine) (is_correct is_complete error_occurred : Bool) :
    TypingResult :=
  { is_correct := is_correct
    is_complete := is_complete
    error_occurred := error_occurred
    typed_text := e.typed_text
    current_position := e.current_position
    characters := e.characters }

/-- `TypingEngine._reset_state`. -/
def reset_state (e : TypingEngine) : TypingEngine :=
  { e with
    typed_text := []
    current_position := 0
    error_count := 0
    is_complete := false
    characters := init_characters e.target_text }

/-- `TypingEngine.__init__` (which stores the target and calls `_reset_state`). -/
def new (target : List Char) : TypingEngine :=
  reset_state
    { target_text := target, typed_text := [], current_position := 0,
      error_count := 0, is_complete := false, characters := [] }

/-- `TypingEngine._handle_correct_input`. -/
def handle_correct_input (e : TypingEngine) (c : Char) : TypingEngine × TypingResult :=
  let typed := e.typed_text ++ [c]
  let pos := e.current_position + 1
  let chars := if pos > 0 then modifyState e.characters (pos - 1) CharacterState.correct
               else e.characters
  let chars := if pos < chars.length then modifyState chars pos CharacterState.current
               else chars
  let complete := decide (e.target_text.length ≤ pos)
  let e' := { e with typed_text := typed, current_position := pos,
                     characters := chars, is_complete := complete }
  (e', e'.create_result true complete false)

/-- `TypingEngine._handle_incorrect_input`. -/
def handle_incorrect_input (e : TypingEngine) : TypingEngine × TypingResult :=
  let chars := if e.current_position < e.characters.length
               then modifyState e.characters e.current_position CharacterState.error
               else e.characters
  let e' := { e with error_count := e.error_count + 1, characters := chars }
  (e', e'.create_result false false true)

/-- `TypingEngine._handle_backspace`. -/
def handle_backspace (e : TypingEngine) : TypingEngine × TypingResult :=
  if e.current_position = 0 then
    (e, e.create_result false false false)
  else
    let pos := e.current_position - 1
    let typed := if e.typed_text ≠ [] then e.typed_text.dropLast else e.typed_text
    let chars := if pos < e.characters.length
                 then modifyState e.characters pos CharacterState.current
                 else e.characters
    let chars := if pos + 1 < chars.length
                 then modifyState chars (pos + 1) CharacterState.undefined
                 else chars
    let e' := { e with current_position := pos, typed_text := typed, characters := chars }
    (e', e'.create_result true false false)

/-- `TypingEngine.process_input`: the input event is the Python string argument,
modelled as a list of characters; `['\x08']` is the backspace signal `"\b"`. -/
def process_input (e : TypingEngine) (input : List Char) : TypingEngine × TypingResult :=
  if e.is_complete then
    (e, e.create_result false true false)
  else
    match input with
    | [c] =>
        if c = '\x08' then
          e.handle_backspace
        else if c.toNat < 32 then
          (e, e.create_result false false false)
        else if e.target_text.length ≤ e.current_position then
          (e, e.create_result false false false)
        else
          let target_char := e.target_text.getD e.current_position ' '
          if c = target_char then e.handle_correct_input c
          else e.handle_incorrect_input
    | _ => (e, e.create_result false false false)

/-- The backward scan of `_reset_current_word`: starting from `word_start`
(the argument), decrement while `word_start > 0` and the preceding target
character is not a space. -/
def wordStartAux (target : List Char) : Nat → Nat
  | 0 => 0
  | n + 1 => if target.getD n ' ' ≠ ' ' then wordStartAux target n else n + 1

/-- The loop `for i in range(word_start, len(chars)): chars[i].state = UNDEFINED`:
slots at indices below the argument are untouched, the rest become `undefined`. -/
def resetFromAux : List CharacterInfo → Nat → List CharacterInfo
  | [], _ => []
  | c :: cs, 0 => { c with state := CharacterState.undefined } :: resetFromAux cs 0
  | c :: cs, n + 1 => c :: resetFromAux cs n

/-- `TypingEngine._reset_current_word`, returning the new state and the
method's boolean result. -/
def reset_current_word (e : TypingEngine) : TypingEngine × Bool :=
  if e.current_position = 0 then
    (e, false)
  else
    let word_start := wordStartAux e.target_text (e.current_position - 1)
    let typed := e.typed_text.take word_start
    let chars := resetFromAux e.characters word_start
    let chars := if word_start < chars.length
                 then modifyState chars word_start CharacterState.current
                 else chars
    ({ e with typed_text := typed, current_position := word_start, characters := chars },
     true)

/-- `TypingEngine.reset`. -/
def reset (e : TypingEngine) (mode : String) : TypingEngine :=
  if mode = "sentence" then e.reset_state
  else if mode = "word" then e.reset_current_word.1
  else e

/-- `TypingEngine.set_target_text`. -/
def set_target_text (e : TypingEngine) (target : List Char) : TypingEngine :=
  reset_state { e with target_text := target }

/-- Repeated calls of `process_input`, discarding the results. -/
def process_inputs (e : TypingEngine) (inputs : List (List Char)) : TypingEngine :=
  inputs.foldl (fun st inp => (st.process_input inp).1) e

end TypingEngine

/-- Engine states reachable through construction, `process_input`, `reset`
(either mode, or any other mode string) and `set_target_text`. -/
inductive Reachable : TypingEngine → Prop
  | new (target : List Char) : Reachable (TypingEngine.new target)
  | input {e : TypingEngine} (inp : List Char) :
      Reachable e → Reachable (e.process_input inp).1
  | reset {e : TypingEngine} (mode : String) :
      Reachable e → Reachable (e.reset mode)
  | set_target {e : TypingEngine} (target : List Char) :
      Reachable e → Reachable (e.set_target_text target)

/-- The reachability invariant of the typing engine: the slot list mirrors the
target, `typed_text` is the typed prefix of the target, slots below the cursor
are `correct`, slots above it are `undefined`, the cursor slot (when it exists)
is `current` or `error`, an empty target is never complete, and reaching the
end of a nonempty target forces `is_complete`. -/
structure Inv (e : TypingEngine) : Prop where
  len_eq : e.characters.length = e.target_text.length
  pos_le : e.current_position ≤ e.target_text.length
  typed_eq : e.typed_text = e.target_text.take e.current_position
  below_correct : ∀ i, i < e.current_position →
    slotState e.characters i = CharacterState.correct
  above_undefined : ∀ i, e.current_position < i → i < e.characters.length →
    slotState e.characters i = CharacterState.undefined
  at_pos : e.current_position < e.characters.length →
    slotState e.characters e.current_position = CharacterState.current ∨
    slotState e.characters e.current_position = CharacterState.error
  empty_not_complete : e.target_text = [] → e.is_complete = false
  complete_at_end : e.current_position = e.target_text.length → e.target_text ≠ [] →
    e.is_complete = true

/-! Embedding of src/ankityping/core/stats.py. Clock readings from
`time.time()` are modelled as rational parameters named `now`; Python floats
are modelled as rationals. -/

/-- Python `int()` truncation toward zero of a rational value. -/
def pyTrunc (q : ℚ) : ℤ :=
  if q < 0 then ⌈q⌉ else ⌊q⌋

/-- Statistics for a single practice session (stats.py, `PracticeSession`).
These six fields are exactly the fields the dataclass declares. -/
structure PracticeSession where
  start_time : ℚ
  end_time : Option ℚ
  error_count : Nat
  hint_count : Nat
  character_count : Nat
  word_count : Nat
deriving DecidableEq, Repr

namespace PracticeSession

/-- `PracticeSession.duration_seconds`; `now` stands for the `time.time()`
reading taken when `end_time` is still `None`. -/
def duration_seconds (s : PracticeSession) (now : ℚ) : ℚ :=
  match s.end_time with
  | none => now - s.start_time
  | some t => t - s.start_time

/-- `PracticeSession.words_per_minute`. -/
def words_per_minute (s : PracticeSession) (now : ℚ) : ℚ :=
  let duration_minutes := s.duration_seconds now / 60
  if duration_minutes ≤ 0 then 0
  else (s.word_count : ℚ) / duration_minutes

/-- `PracticeSession.accuracy`. -/
def accuracy (s : PracticeSession) : ℚ :=
  if s.character_count = 0 then 1
  else max 0 (((s.character_count : ℚ) - (s.error_count : ℚ)) / (s.character_count : ℚ))

/-- `PracticeSession.calculate_score`. -/
def calculate_score (s : PracticeSession) (now : ℚ) : ℤ :=
  let accuracy_score := s.accuracy * 50
  let wpm_target : ℚ := 20
  let speed_score := min 30 ((s.words_per_minute now / wpm_target) * 30)
  let hint_penalty := min 20 ((s.hint_count : ℚ) * 5)
  let total_score := accuracy_score + speed_score - hint_penalty
  max 0 (min 100 (pyTrunc total_score))

/-- Attribute lookup `session.show_timer` (stats.py line 145): the
`PracticeSession` dataclass (stats.py lines 10 to 18) declares only the six
fields `start_time`, `end_time`, `error_count`, `hint_count`,
`character_count` and `word_count`, so looking up `show_timer` finds no
attribute; the failed lookup is modelled as `none`. -/
def show_timer_attr (_s : PracticeSession) : Option Bool :=
  none

end PracticeSession

/-- Score formula as the specification words it: accuracy times 50, plus
min(30, (wpm/20) times 30), minus min(20, hint_count times 5), truncated to an
integer and clamped to [0, 100], where accuracy is
max(0, (character_count - error_count)/character_count) (1 when
character_count = 0) and wpm is word_count/(duration/60). -/
def score_spec (character_count word_count error_count hint_count : Nat)
    (duration : ℚ) : ℤ :=
  let accuracy : ℚ :=
    if character_count = 0 then 1
    else max 0 (((character_count : ℚ) - (error_count : ℚ)) / (character_count : ℚ))
  let wpm : ℚ := (word_count : ℚ) / (duration / 60)
  max 0 (min 100 (pyTrunc
    (accuracy * 50 + min 30 ((wpm / 20) * 30) - min 20 ((hint_count : ℚ) * 5))))

/-- Word count of Python `str.split()` with no argument: the number of
maximal runs of non-whitespace characters. -/
def countWordsAux : List Char → Bool → Nat
  | [], _ => 0
  | c :: cs, inWord =>
      if c.isWhitespace then countWordsAux cs false
      else (if inWord then 0 else 1) + countWordsAux cs true

/-- Number of whitespace-delimited words of a text, as `len(text.split())`. -/
def countWords (t : List Char) : Nat :=
  countWordsAux t false

/-- stats.py `StatsCollector`. The optional `update_callback` only forwards
notifications to the UI and is consulted by no method result, so it is not
part of the modelled state; `running` models `_is_running`. -/
structure StatsCollector where
  session : Option PracticeSession
  running : Bool
deriving DecidableEq, Repr

namespace StatsCollector

/-- `StatsCollector.start_session`. -/
def start_session (_c : StatsCollector) (target : List Char) (now : ℚ) :
    StatsCollector :=
  { session := some
      { start_time := now, end_time := none, error_count := 0, hint_count := 0,
        character_count := target.length, word_count := countWords target },
    running := true }

/-- `StatsCollector.get_elapsed_time`. -/
def get_elapsed_time (c : StatsCollector) (now : ℚ) : ℚ :=
  match c.session with
  | none => 0
  | some s => s.duration_seconds now

/-- `StatsCollector.get_error_count`. -/
def get_error_count (c : StatsCollector) : Nat :=
  match c.session with
  | none => 0
  | some s => s.error_count

/-- `StatsCollector.get_hint_count`. -/
def get_hint_count (c : StatsCollector) : Nat :=
  match c.session with
  | none => 0
  | some s => s.hint_count

/-- `StatsCollector.get_words_per_minute`. -/
def get_words_per_minute (c : StatsCollector) (now : ℚ) : ℚ :=
  match c.session with
  | none => 0
  | some s => s.words_per_minute now

/-- `StatsCollector.get_accuracy`. -/
def get_accuracy (c : StatsCollector) : ℚ :=
  match c.session with
  | none => 1
  | some s => s.accuracy

/-- Two-digit zero padding of the Python `02d` format. -/
def padTwo (n : ℤ) : String :=
  if 0 ≤ n ∧ n < 10 then "0" ++ toString n else toString n

/-- `StatsCollector.get_formatted_time`. The float floor-division and modulo
of the Python code are rendered with integer floor on the rational elapsed
time (they agree for the nonnegative elapsed times a real clock produces). -/
def get_formatted_time (c : StatsCollector) (now : ℚ) : String :=
  let elapsed := c.get_elapsed_time now
  padTwo ⌊elapsed / 60⌋ ++ ":" ++ padTwo (⌊elapsed⌋ % 60)

/-- `StatsCollector.get_formatted_stats`; `Except.error` models an uncaught
Python exception escaping the call. The `some show_timer` branch writes the
parts list of the Python code (it is unreachable, because the `show_timer`
lookup never produces a value; the one-decimal and percent float formats are
rendered with `toString` on the rationals). -/
def get_formatted_stats (c : StatsCollector) (now : ℚ) : Except String String :=
  match c.session with
  | none => Except.ok "No session in progress"
  | some s =>
      match s.show_timer_attr with
      | none =>
          Except.error "AttributeError: PracticeSession has no attribute show_timer"
      | some show_timer =>
          let parts : List String :=
            (if show_timer ≠ false then ["Time: " ++ c.get_formatted_time now] else []) ++
            ["Errors: " ++ toString c.get_error_count] ++
            (if 0 < c.get_hint_count then ["Hints: " ++ toString c.get_hint_count] else []) ++
            ["WPM: " ++ toString (c.get_words_per_minute now)] ++
            ["Accuracy: " ++ toString c.get_accuracy]
          Except.ok (String.intercalate ", " parts)

end StatsCollector


/-! Helper lemmas about the slot-list primitives and the word scan. -/


@[simp]
theorem slotState_nil (i : Nat) : slotState [] i = CharacterState.undefined := rfl

@[simp]
theorem slotState_cons_zero (c : CharacterInfo) (cs : List CharacterInfo) :
    slotState (c :: cs) 0 = c.state := rfl

@[simp]
theorem slotState_cons_succ (c : CharacterInfo) (cs : List CharacterInfo) (n : Nat) :
    slotState (c :: cs) (n + 1) = slotState cs n := rfl

theorem slotState_of_length_le {l : List CharacterInfo} {i : Nat} (h : l.length ≤ i) :
    slotState l i = CharacterState.undefined := by
  induction l generalizing i with
  | nil => rfl
  | cons c cs ih =>
    cases i with
    | zero => simp at h
    | succ n =>
      simp only [List.length_cons, Nat.succ_le_succ_iff] at h
      simpa using ih h

@[simp]
theorem length_modifyState (l : List CharacterInfo) (i : Nat) (s : CharacterState) :
    (modifyState l i s).length = l.length := by
  induction l generalizing i with
  | nil => rfl
  | cons c cs ih =>
    cases i with
    | zero => rfl
    | succ n => simpa [modifyState] using ih n

theorem slotState_modifyState_self {l : List CharacterInfo} {i : Nat}
    (h : i < l.length) (s : CharacterState) :
    slotState (modifyState l i s) i = s := by
  induction l generalizing i with
  | nil => simp at h
  | cons c cs ih =>
    cases i with
    | zero => rfl
    | succ n =>
      simp only [List.length_cons, Nat.succ_lt_succ_iff] at h
      simpa [modifyState] using ih h

theorem slotState_modifyState_ne (l : List CharacterInfo) {i j : Nat}
    (h : j ≠ i) (s : CharacterState) :
    slotState (modifyState l i s) j = slotState l j := by
  induction l generalizing i j with
  | nil => simp [modifyState]
  | cons c cs ih =>
    cases i with
    | zero =>
      cases j with
      | zero => exact absurd rfl h
      | succ m => simp [modifyState]
    | succ n =>
      cases j with
      | zero => simp [modifyState]
      | succ m =>
        have hmn : m ≠ n := by omega
        simpa [modifyState] using ih hmn

@[simp]
theorem length_init_characters_aux (t : List Char) (i : Nat) :
    (init_characters_aux t i).length = t.length := by
  induction t generalizing i with
  | nil => rfl
  | cons c cs ih => simpa [init_characters_aux] using ih (i + 1)

@[simp]
theorem length_init_characters (t : List Char) :
    (init_characters t).length = t.length :=
  length_init_characters_aux t 0

theorem slotState_init_characters_aux (t : List Char) (i j : Nat) (h : j < t.length) :
    slotState (init_characters_aux t i) j =
      if i + j = 0 then CharacterState.current else CharacterState.undefined := by
  induction t generalizing i j with
  | nil => simp at h
  | cons c cs ih =>
    cases j with
    | zero => simp [init_characters_aux]
    | succ m =>
      simp only [List.length_cons, Nat.succ_lt_succ_iff] at h
      have := ih (i + 1) m h
      simp only [init_characters_aux, slotState_cons_succ, this]
      rw [if_neg (by omega), if_neg (by omega)]

theorem slotState_init_characters_zero {t : List Char} (h : 0 < t.length) :
    slotState (init_characters t) 0 = CharacterState.current := by
  simpa [init_characters] using slotState_init_characters_aux t 0 0 h

theorem slotState_init_characters_pos {t : List Char} {j : Nat}
    (hj : 0 < j) (h : j < t.length) :
    slotState (init_characters t) j = CharacterState.undefined := by
  have := slotState_init_characters_aux t 0 j h
  simp only [init_characters]
  rw [this, if_neg (by omega)]

@[simp]
theorem length_resetFromAux (l : List CharacterInfo) (n : Nat) :
    (TypingEngine.resetFromAux l n).length = l.length := by
  induction l generalizing n with
  | nil => rfl
  | cons c cs ih =>
    cases n with
    | zero => simpa [TypingEngine.resetFromAux] using ih 0
    | succ m => simpa [TypingEngine.resetFromAux] using ih m

theorem slotState_resetFromAux_lt {l : List CharacterInfo} {n j : Nat} (h : j < n) :
    slotState (TypingEngine.resetFromAux l n) j = slotState l j := by
  induction l generalizing n j with
  | nil => simp [TypingEngine.resetFromAux]
  | cons c cs ih =>
    cases n with
    | zero => omega
    | succ m =>
      cases j with
      | zero => simp [TypingEngine.resetFromAux]
      | succ k =>
        have : k < m := by omega
        simpa [TypingEngine.resetFromAux] using ih this

theorem slotState_resetFromAux_ge {l : List CharacterInfo} {n j : Nat}
    (hn : n ≤ j) (hj : j < l.length) :
    slotState (TypingEngine.resetFromAux l n) j = CharacterState.undefined := by
  induction l generalizing n j with
  | nil => simp at hj
  | cons c cs ih =>
    cases n with
    | zero =>
      cases j with
      | zero => simp [TypingEngine.resetFromAux]
      | succ k =>
        simp only [List.length_cons, Nat.succ_lt_succ_iff] at hj
        simpa [TypingEngine.resetFromAux] using ih (Nat.zero_le k) hj
    | succ m =>
      cases j with
      | zero => omega
      | succ k =>
        simp only [List.length_cons, Nat.succ_lt_succ_iff] at hj
        have : m ≤ k := by omega
        simpa [TypingEngine.resetFromAux] using ih this hj

theorem wordStartAux_le (t : List Char) (n : Nat) : TypingEngine.wordStartAux t n ≤ n := by
  induction n with
  | zero => exact Nat.le_refl 0
  | succ m ih =>
    simp only [TypingEngine.wordStartAux]
    split
    · omega
    · omega

theorem wordStartAux_boundary (t : List Char) (n : Nat) :
    TypingEngine.wordStartAux t n = 0 ∨
    t.getD (TypingEngine.wordStartAux t n - 1) ' ' = ' ' := by
  induction n with
  | zero => exact Or.inl rfl
  | succ m ih =>
    simp only [TypingEngine.wordStartAux]
    split
    · exact ih
    · right
      simp_all

theorem wordStartAux_no_space (t : List Char) (n : Nat) :
    ∀ k, TypingEngine.wordStartAux t n ≤ k → k < n → t.getD k ' ' ≠ ' ' := by
  induction n with
  | zero => omega
  | succ m ih =>
    intro k hk hkm
    simp only [TypingEngine.wordStartAux] at hk
    by_cases hc : t.getD m ' ' ≠ ' '
    · rw [if_pos hc] at hk
      rcases Nat.lt_or_ge k m with h | h
      · exact ih k hk h
      · have : k = m := by omega
        simpa [this] using hc
    · rw [if_neg hc] at hk
      omega

/-- Taking one more element appends the element at the cut point. -/
theorem take_succ_getD (l : List Char) (n : Nat) (h : n < l.length) :
    l.take (n + 1) = l.take n ++ [l.getD n ' '] := by
  induction l generalizing n with
  | nil => simp at h
  | cons c cs ih =>
    cases n with
    | zero => simp
    | succ m =>
      simp only [List.length_cons, Nat.succ_lt_succ_iff] at h
      simp [List.take_succ_cons, ih m h]

/-- Dropping the last element of a nonempty prefix shortens the prefix by one. -/
theorem dropLast_take (l : List Char) (n : Nat) (h : n ≤ l.length) :
    (l.take n).dropLast = l.take (n - 1) := by
  cases n with
  | zero => simp
  | succ m =>
    rw [take_succ_getD l m (by omega)]
    simp

theorem inv_reset_state (e : TypingEngine) : Inv e.reset_state := by
  refine ⟨?_, ?_, ?_, ?_, ?_, ?_, ?_, ?_⟩ <;>
    simp only [TypingEngine.reset_state]
  · exact length_init_characters _
  · exact Nat.zero_le _
  · simp
  · intro i hi; omega
  · intro i hi hl
    exact slotState_init_characters_pos hi (by simpa using hl)
  · intro hl
    exact Or.inl (slotState_init_characters_zero (by simpa using hl))
  · intro _; trivial
  · intro h0 hne
    exact absurd (List.length_eq_zero.mp h0.symm) hne

theorem inv_new (t : List Char) : Inv (TypingEngine.new t) :=
  inv_reset_state _

theorem inv_set_target_text (e : TypingEngine) (t : List Char) :
    Inv (e.set_target_text t) :=
  inv_reset_state _

theorem inv_handle_correct {e : TypingEngine} (h : Inv e)
    (hp : e.current_position < e.target_text.length) :
    Inv (e.handle_correct_input (e.target_text.getD e.current_position ' ')).1 := by
  obtain ⟨hlen, hple, htyped, hbelow, habove, hat, hemp, hend⟩ := h
  have hp' : e.current_position < e.characters.length := by omega
  have hne : e.target_text ≠ [] := by
    intro h0; rw [h0] at hp; simp at hp
  have h1 : 0 < e.current_position + 1 := Nat.succ_pos _
  by_cases hlast : e.current_position + 1 < e.target_text.length
  · have h2 : e.current_position + 1 < e.characters.length := by omega
    have h2m : e.current_position + 1 <
        (modifyState e.characters e.current_position CharacterState.correct).length := by
      rw [length_modifyState]; omega
    have h3 : ¬ (e.target_text.length ≤ e.current_position + 1) := by omega
    have hstate : (e.handle_correct_input (e.target_text.getD e.current_position ' ')).1 =
        { e with
          typed_text := e.typed_text ++ [e.target_text.getD e.current_position ' '],
          current_position := e.current_position + 1,
          characters := modifyState
            (modifyState e.characters e.current_position CharacterState.correct)
            (e.current_position + 1) CharacterState.current,
          is_complete := false } := by
      simp [TypingEngine.handle_correct_input, h1, h2, h3]
    rw [hstate]
    refine ⟨?_, ?_, ?_, ?_, ?_, ?_, ?_, ?_⟩ <;> dsimp only
    · simp [hlen]
    · omega
    · rw [htyped, ← take_succ_getD e.target_text e.current_position hp]
    · intro i hi
      rcases Nat.lt_or_ge i e.current_position with hip | hip
      · rw [slotState_modifyState_ne _ (by omega), slotState_modifyState_ne _ (by omega)]
        exact hbelow i hip
      · have : i = e.current_position := by omega
        subst this
        rw [slotState_modifyState_ne _ (by omega), slotState_modifyState_self hp']
    · intro i hi hl
      rw [length_modifyState, length_modifyState] at hl
      rw [slotState_modifyState_ne _ (by omega), slotState_modifyState_ne _ (by omega)]
      exact habove i (by omega) hl
    · intro hl
      rw [slotState_modifyState_self h2m]
      exact Or.inl rfl
    · intro h0
      exact absurd h0 hne
    · intro hx _
      omega
  · have hpe : e.current_position + 1 = e.target_text.length := by omega
    have h2 : ¬ (e.current_position + 1 < e.characters.length) := by omega
    have h3 : e.target_text.length ≤ e.current_position + 1 := by omega
    have hstate : (e.handle_correct_input (e.target_text.getD e.current_position ' ')).1 =
        { e with
          typed_text := e.typed_text ++ [e.target_text.getD e.current_position ' '],
          current_position := e.current_position + 1,
          characters := modifyState e.characters e.current_position CharacterState.correct,
          is_complete := true } := by
      simp [TypingEngine.handle_correct_input, h1, h2, h3]
    rw [hstate]
    refine ⟨?_, ?_, ?_, ?_, ?_, ?_, ?_, ?_⟩ <;> dsimp only
    · simp [hlen]
    · omega
    · rw [htyped, ← take_succ_getD e.target_text e.current_position hp]
    · intro i hi
      rcases Nat.lt_or_ge i e.current_position with hip | hip
      · rw [slotState_modifyState_ne _ (by omega)]
        exact hbelow i hip
      · have : i = e.current_position := by omega
        subst this
        rw [slotState_modifyState_self hp']
    · intro i hi hl
      rw [length_modifyState] at hl
      omega
    · intro hl
      rw [length_modifyState] at hl
      omega
    · intro h0
      exact absurd h0 hne
    · intro _ _
      rfl

theorem inv_handle_incorrect {e : TypingEngine} (h : Inv e)
    (hc : e.is_complete = false)
    (hp : e.current_position < e.target_text.length) :
    Inv e.handle_incorrect_input.1 := by
  obtain ⟨hlen, hple, htyped, hbelow, habove, hat, hemp, hend⟩ := h
  have hp' : e.current_position < e.characters.length := by omega
  have hstate : e.handle_incorrect_input.1 =
      { e with
        error_count := e.error_count + 1,
        characters := modifyState e.characters e.current_position CharacterState.error } := by
    simp [TypingEngine.handle_incorrect_input, hp']
  rw [hstate]
  refine ⟨?_, ?_, ?_, ?_, ?_, ?_, ?_, ?_⟩ <;> dsimp only
  · simp [hlen]
  · exact hple
  · exact htyped
  · intro i hi
    rw [slotState_modifyState_ne _ (by omega)]
    exact hbelow i hi
  · intro i hi hl
    rw [length_modifyState] at hl
    rw [slotState_modifyState_ne _ (by omega)]
    exact habove i hi hl
  · intro _
    rw [slotState_modifyState_self hp']
    exact Or.inr rfl
  · intro _
    exact hc
  · intro hpe _
    omega

theorem inv_handle_backspace {e : TypingEngine} (h : Inv e)
    (hc : e.is_complete = false) :
    Inv e.handle_backspace.1 := by
  obtain ⟨hlen, hple, htyped, hbelow, habove, hat, hemp, hend⟩ := h
  by_cases h0 : e.current_position = 0
  · simp only [TypingEngine.handle_backspace, if_pos h0]
    exact ⟨hlen, hple, htyped, hbelow, habove, hat, hemp, hend⟩
  · have hp0 : 0 < e.current_position := Nat.pos_of_ne_zero h0
    have hpL : e.current_position < e.target_text.length := by
      rcases Nat.lt_or_ge e.current_position e.target_text.length with hlt | hge
      · exact hlt
      · have hpe : e.current_position = e.target_text.length := by omega
        have hne : e.target_text ≠ [] := by
          intro h'
          rw [h'] at hpe
          simp at hpe
          omega
        rw [hend hpe hne] at hc
        exact absurd hc (by simp)
    have htne : e.typed_text ≠ [] := by
      rw [htyped]
      intro h'
      have hlt := congrArg List.length h'
      rw [List.length_take] at hlt
      simp only [List.length_nil] at hlt
      omega
    have hprev : e.current_position - 1 < e.characters.length := by omega
    have hsucc : e.current_position - 1 + 1 = e.current_position := by omega
    have h2 : e.current_position - 1 + 1 < e.characters.length := by omega
    have hstate : e.handle_backspace.1 =
        { e with
          current_position := e.current_position - 1,
          typed_text := e.typed_text.dropLast,
          characters := modifyState
            (modifyState e.characters (e.current_position - 1) CharacterState.current)
            (e.current_position - 1 + 1) CharacterState.undefined } := by
      simp [TypingEngine.handle_backspace, h0, htne, hprev, h2]
    rw [hstate]
    refine ⟨?_, ?_, ?_, ?_, ?_, ?_, ?_, ?_⟩ <;> dsimp only
    · simp [hlen]
    · omega
    · rw [htyped, dropLast_take _ _ hple]
    · intro i hi
      rw [slotState_modifyState_ne _ (by omega), slotState_modifyState_ne _ (by omega)]
      exact hbelow i (by omega)
    · intro i hi hl
      rw [length_modifyState, length_modifyState] at hl
      rcases Nat.lt_or_ge e.current_position i with hgt | hle
      · rw [slotState_modifyState_ne _ (by omega), slotState_modifyState_ne _ (by omega)]
        exact habove i hgt hl
      · have : i = e.current_position := by omega
        subst this
        rw [show e.current_position - 1 + 1 = e.current_position by omega,
          slotState_modifyState_self (by rw [length_modifyState]; omega)]
    · intro hl
      rw [slotState_modifyState_ne _ (by omega), slotState_modifyState_self hprev]
      exact Or.inl rfl
    · intro _
      exact hc
    · intro hpe _
      omega

theorem inv_reset_current_word {e : TypingEngine} (h : Inv e) :
    Inv e.reset_current_word.1 := by
  obtain ⟨hlen, hple, htyped, hbelow, habove, hat, hemp, hend⟩ := h
  by_cases h0 : e.current_position = 0
  · simp only [TypingEngine.reset_current_word, if_pos h0]
    exact ⟨hlen, hple, htyped, hbelow, habove, hat, hemp, hend⟩
  · have hp0 : 0 < e.current_position := Nat.pos_of_ne_zero h0
    have hws_le : TypingEngine.wordStartAux e.target_text (e.current_position - 1) ≤
        e.current_position - 1 := wordStartAux_le _ _
    have hwsL : TypingEngine.wordStartAux e.target_text (e.current_position - 1) <
        e.target_text.length := by omega
    have hwsC : TypingEngine.wordStartAux e.target_text (e.current_position - 1) <
        e.characters.length := by omega
    have hwsCm : TypingEngine.wordStartAux e.target_text (e.current_position - 1) <
        (TypingEngine.resetFromAux e.characters
          (TypingEngine.wordStartAux e.target_text (e.current_position - 1))).length := by
      rw [length_resetFromAux]; omega
    have hne : e.target_text ≠ [] := by
      intro h'
      rw [h'] at hple
      simp at hple
      omega
    have hstate : e.reset_current_word.1 =
        { e with
          typed_text :=
            e.typed_text.take (TypingEngine.wordStartAux e.target_text (e.current_position - 1)),
          current_position := TypingEngine.wordStartAux e.target_text (e.current_position - 1),
          characters := modifyState
            (TypingEngine.resetFromAux e.characters
              (TypingEngine.wordStartAux e.target_text (e.current_position - 1)))
            (TypingEngine.wordStartAux e.target_text (e.current_position - 1))
            CharacterState.current } := by
      simp [TypingEngine.reset_current_word, h0, hwsC]
    rw [hstate]
    refine ⟨?_, ?_, ?_, ?_, ?_, ?_, ?_, ?_⟩ <;> dsimp only
    · simp [hlen]
    · omega
    · rw [htyped, List.take_take, Nat.min_eq_left (by omega)]
    · intro i hi
      rw [slotState_modifyState_ne _ (by omega), slotState_resetFromAux_lt hi]
      exact hbelow i (by omega)
    · intro i hi hl
      rw [length_modifyState, length_resetFromAux] at hl
      rw [slotState_modifyState_ne _ (by omega),
        slotState_resetFromAux_ge (by omega) hl]
    · intro hl
      rw [slotState_modifyState_self hwsCm]
      exact Or.inl rfl
    · intro h'
      exact hemp h'
    · intro hpe _
      omega

theorem inv_process_input {e : TypingEngine} (h : Inv e) (input : List Char) :
    Inv (e.process_input input).1 := by
  by_cases hc : e.is_complete = true
  · simpa [TypingEngine.process_input, hc] using h
  · have hcf : e.is_complete = false := by simpa using hc
    rcases input with _ | ⟨c, _ | ⟨d, rest⟩⟩
    · simpa [TypingEngine.process_input, hcf] using h
    · simp only [TypingEngine.process_input, hcf, Bool.false_eq_true, if_false]
      by_cases hbs : c = '\x08'
      · rw [if_pos hbs]
        exact inv_handle_backspace h hcf
      · rw [if_neg hbs]
        by_cases hctl : c.toNat < 32
        · rw [if_pos hctl]
          exact h
        · rw [if_neg hctl]
          by_cases hoff : e.target_text.length ≤ e.current_position
          · rw [if_pos hoff]
            exact h
          · rw [if_neg hoff]
            have hp : e.current_position < e.target_text.length := by omega
            by_cases heq : c = e.target_text.getD e.current_position ' '
            · rw [if_pos heq, heq]
              exact inv_handle_correct h hp
            · rw [if_neg heq]
              exact inv_handle_incorrect h hcf hp
    · simpa [TypingEngine.process_input, hcf] using h

theorem inv_reset {e : TypingEngine} (h : Inv e) (mode : String) :
    Inv (e.reset mode) := by
  unfold TypingEngine.reset
  by_cases h1 : mode = "sentence"
  · rw [if_pos h1]
    exact inv_reset_state e
  · rw [if_neg h1]
    by_cases h2 : mode = "word"
    · rw [if_pos h2]
      exact inv_reset_current_word h
    · rw [if_neg h2]
      exact h

/-- Every reachable engine state satisfies the invariant. -/
theorem Reachable.inv {e : TypingEngine} (h : Reachable e) : Inv e := by
  induction h with
  | new t => exact inv_new t
  | input inp _ ih => exact inv_process_input ih inp
  | reset mode _ ih => exact inv_reset ih mode
  | set_target t _ ih => exact inv_set_target_text _ t

/-! Claim theorems. -/

/-- C1 counterexample: an engine constructed with an empty target text has
`current_position = len(target_text)` (both are 0) yet `is_complete` is false,
so `is_complete` is not equivalent to `current_position = len(target_text)`
and the empty-target engine is not immediately complete. -/
theorem C1_counterexample :
    ¬ ((TypingEngine.new []).is_complete = true ↔
        (TypingEngine.new []).current_position =
          (TypingEngine.new []).target_text.length) := by
  decide

/-- C1 (amended): for every reachable engine state, reaching the end of a
nonempty target forces `is_complete`; an engine whose target is empty is never
complete (`is_complete` stays false) even though `current_position` equals
`len(target_text)`, and every `process_input` call on it is a no-op returning
the Result `is_correct=false, is_complete=false, error_occurred=false` with
the state unchanged. (The converse direction fails: `reset("word")` on a
completed engine keeps `is_complete` true with `current_position` below
`len(target_text)`.) -/
theorem C1_amended_completion (e : TypingEngine) (h : Reachable e) :
    (e.target_text ≠ [] → e.current_position = e.target_text.length →
      e.is_complete = true) ∧
    (e.target_text = [] →
      e.is_complete = false ∧
      e.current_position = e.target_text.length ∧
      ∀ input, e.process_input input = (e, e.create_result false false false)) := by
  obtain ⟨hlen, hple, htyped, hbelow, habove, hat, hemp, hend⟩ := h.inv
  constructor
  · intro hne hpe
    exact hend hpe hne
  · intro h0
    have hp0 : e.current_position = 0 := by
      rw [h0] at hple
      simpa using hple
    have hcf : e.is_complete = false := hemp h0
    refine ⟨hcf, by rw [h0, hp0]; rfl, ?_⟩
    intro input
    rcases input with _ | ⟨c, _ | ⟨d, rest⟩⟩
    · simp [TypingEngine.process_input, hcf]
    · simp only [TypingEngine.process_input, hcf, Bool.false_eq_true, if_false]
      by_cases hbs : c = '\x08'
      · rw [if_pos hbs]
        simp [TypingEngine.handle_backspace, hp0]
      · rw [if_neg hbs]
        by_cases hctl : c.toNat < 32
        · rw [if_pos hctl]
        · rw [if_neg hctl]
          have hoff : e.target_text.length ≤ e.current_position := by
            rw [h0, hp0]
            exact Nat.le_refl 0
          rw [if_pos hoff]
    · simp [TypingEngine.process_input, hcf]

/-- C1 witness: the amended theorem applied to the engine built on the empty
target text. -/
theorem C1_witness :
    (TypingEngine.new []).is_complete = false ∧
    (TypingEngine.new []).current_position =
      (TypingEngine.new []).target_text.length ∧
    (TypingEngine.new []).process_input ['a'] =
      (TypingEngine.new [],
        (TypingEngine.new []).create_result false false false) :=
  have h := (C1_amended_completion _ (Reachable.new [])).2 rfl
  ⟨h.1, h.2.1, h.2.2 ['a']⟩

/-- C3: once `is_complete` holds, `process_input` returns the no-op Result
`is_correct=false, is_complete=true, error_occurred=false` and leaves the
state unchanged, for any input event and any number of repeated calls. -/
theorem C3_complete_noop (e : TypingEngine) (h : e.is_complete = true) :
    (∀ input, e.process_input input = (e, e.create_result false true false)) ∧
    (∀ inputs, e.process_inputs inputs = e) := by
  have hsingle : ∀ input, e.process_input input =
      (e, e.create_result false true false) := by
    intro input
    simp [TypingEngine.process_input, h]
  refine ⟨hsingle, ?_⟩
  intro inputs
  induction inputs with
  | nil => rfl
  | cons a as ih =>
      unfold TypingEngine.process_inputs at ih ⊢
      rw [List.foldl_cons, hsingle a]
      exact ih

/-- C3 witness: the no-op theorem applied to a concrete completed engine. -/
theorem C3_witness :
    TypingEngine.process_input
        { target_text := ['H'], typed_text := ['H'], current_position := 1,
          error_count := 0, is_complete := true, characters := [] } ['x'] =
      ({ target_text := ['H'], typed_text := ['H'], current_position := 1,
          error_count := 0, is_complete := true, characters := [] },
        TypingEngine.create_result
          { target_text := ['H'], typed_text := ['H'], current_position := 1,
            error_count := 0, is_complete := true, characters := [] }
          false true false) :=
  (C3_complete_noop _ rfl).1 ['x']

/-- C7 counterexample: the empty input event and a two-character input event
do not signal any InvalidArgument condition: each returns the very same
normal no-op Result that an ignored control character (tab) produces, with
the engine state unchanged. -/
theorem C7_counterexample :
    ((TypingEngine.new ['H','i']).process_input [] =
      (TypingEngine.new ['H','i'],
        (TypingEngine.new ['H','i']).create_result false false false)) ∧
    ((TypingEngine.new ['H','i']).process_input ['a','b'] =
      (TypingEngine.new ['H','i'],
        (TypingEngine.new ['H','i']).create_result false false false)) ∧
    ((TypingEngine.new ['H','i']).process_input ['\x09'] =
      (TypingEngine.new ['H','i'],
        (TypingEngine.new ['H','i']).create_result false false false)) := by
  decide

/-- C7 (amended): a multi-character or empty input event on a non-complete
engine is treated as an ignored no-op, returning the normal Result
`is_correct=false, is_complete=false, error_occurred=false` with the state
unchanged; no InvalidArgument condition is signalled. -/
theorem C7_amended_invalid_input_noop (e : TypingEngine) (input : List Char)
    (hc : e.is_complete = false) (hone : input.length ≠ 1) :
    e.process_input input = (e, e.create_result false false false) := by
  rcases input with _ | ⟨c, _ | ⟨d, rest⟩⟩
  · simp [TypingEngine.process_input, hc]
  · simp at hone
  · simp [TypingEngine.process_input, hc]

/-- C7 witness: the amended theorem applied to a two-character paste on a
fresh engine. -/
theorem C7_witness :
    (TypingEngine.new ['H','i']).process_input ['a','b'] =
      (TypingEngine.new ['H','i'],
        (TypingEngine.new ['H','i']).create_result false false false) :=
  C7_amended_invalid_input_noop _ ['a','b'] rfl (by decide)

/-- C2 counterexample: after the wrong keystroke x on target "Hi" the engine
is not complete and its target is nonempty, yet no slot has state Current
(the slot at `current_position` has state Error), refuting the claimed
exactly-one-Current-slot invariant. -/
theorem C2_counterexample :
    (((TypingEngine.new ['H','i']).process_input ['x']).1.is_complete = false) ∧
    (((TypingEngine.new ['H','i']).process_input ['x']).1.target_text ≠ []) ∧
    (slotState ((TypingEngine.new ['H','i']).process_input ['x']).1.characters
      ((TypingEngine.new ['H','i']).process_input ['x']).1.current_position =
      CharacterState.error) ∧
    (∀ i, i < ((TypingEngine.new ['H','i']).process_input ['x']).1.characters.length →
      slotState ((TypingEngine.new ['H','i']).process_input ['x']).1.characters i ≠
        CharacterState.current) := by
  decide

/-- C2 (amended): for every reachable engine state, every slot below
`current_position` is Correct and every slot above it is Undefined; a Current
slot can only sit at index `current_position`, and the slot at
`current_position` (when it exists, i.e. `current_position <
len(target_text)`) is either Current or Error — Error exactly in the state
left by a wrong keystroke; when `current_position = len(target_text)` (in
particular when the target is empty) there is no Current slot. (The original
claim's condition `is_complete` does not guarantee the absence of a Current
slot, because `reset("word")` on a completed engine keeps `is_complete` true
while re-creating a Current slot.) -/
theorem C2_amended_slot_invariant (e : TypingEngine) (h : Reachable e) :
    (∀ i, i < e.current_position →
      slotState e.characters i = CharacterState.correct) ∧
    (∀ i, e.current_position < i → i < e.characters.length →
      slotState e.characters i = CharacterState.undefined) ∧
    (e.current_position < e.characters.length →
      slotState e.characters e.current_position = CharacterState.current ∨
      slotState e.characters e.current_position = CharacterState.error) ∧
    (∀ i, i < e.characters.length →
      slotState e.characters i = CharacterState.current →
      i = e.current_position) ∧
    (e.current_position = e.target_text.length →
      ∀ i, i < e.characters.length →
        slotState e.characters i ≠ CharacterState.current) := by
  obtain ⟨hlen, hple, htyped, hbelow, habove, hat, hemp, hend⟩ := h.inv
  refine ⟨hbelow, habove, hat, ?_, ?_⟩
  · intro i hi hcur
    by_contra hne
    rcases Nat.lt_or_ge i e.current_position with hlt | hge
    · rw [hbelow i hlt] at hcur
      exact absurd hcur (by decide)
    · have hgt : e.current_position < i := by omega
      rw [habove i hgt hi] at hcur
      exact absurd hcur (by decide)
  · intro hpe i hi hcur
    have hlt : i < e.current_position := by omega
    rw [hbelow i hlt] at hcur
    exact absurd hcur (by decide)

/-- C2 witness: the amended invariant applied to the reachable state after
one correct keystroke on target "Hi"; slot 0 is Correct there. -/
theorem C2_witness :
    slotState ((TypingEngine.new ['H','i']).process_input ['H']).1.characters 0 =
      CharacterState.correct :=
  (C2_amended_slot_invariant _
    (Reachable.input ['H'] (Reachable.new ['H','i']))).1 0 (by decide)

/-- C4: processing a single printable character that differs from the target
character at the cursor increments `error_count` by one, leaves the cursor
and the typed text unchanged, marks the cursor slot Error, and reports
`is_correct=false, error_occurred=true, is_complete=false`. -/
theorem C4_wrong_char (e : TypingEngine) (c : Char) (h : Reachable e)
    (hc : e.is_complete = false)
    (hp : e.current_position < e.target_text.length)
    (hprint : 32 ≤ c.toNat)
    (hdiff : c ≠ e.target_text.getD e.current_position ' ') :
    ((e.process_input [c]).1.error_count = e.error_count + 1) ∧
    ((e.process_input [c]).1.current_position = e.current_position) ∧
    ((e.process_input [c]).1.typed_text = e.typed_text) ∧
    (slotState (e.process_input [c]).1.characters e.current_position =
      CharacterState.error) ∧
    ((e.process_input [c]).2.is_correct = false) ∧
    ((e.process_input [c]).2.error_occurred = true) ∧
    ((e.process_input [c]).2.is_complete = false) := by
  have hbs : c ≠ '\x08' := by
    intro h'
    rw [h'] at hprint
    exact absurd hprint (by decide)
  have hctl : ¬ (c.toNat < 32) := by omega
  have hoff : ¬ (e.target_text.length ≤ e.current_position) := by omega
  have hpe : e.process_input [c] = e.handle_incorrect_input := by
    simp only [TypingEngine.process_input, hc, Bool.false_eq_true, if_false]
    rw [if_neg hbs, if_neg hctl, if_neg hoff, if_neg hdiff]
  have hp' : e.current_position < e.characters.length := by
    have := h.inv.len_eq
    omega
  rw [hpe]
  simp [TypingEngine.handle_incorrect_input, hp', TypingEngine.create_result,
    slotState_modifyState_self hp']

/-- C4 witness: the wrong keystroke x on a fresh engine with target "Hi"
leaves the cursor at 0 and sets error_count to 1. -/
theorem C4_witness :
    (((TypingEngine.new ['H','i']).process_input ['x']).1.error_count =
      (TypingEngine.new ['H','i']).error_count + 1) ∧
    (((TypingEngine.new ['H','i']).process_input ['x']).1.current_position =
      (TypingEngine.new ['H','i']).current_position) ∧
    (((TypingEngine.new ['H','i']).process_input ['x']).1.typed_text =
      (TypingEngine.new ['H','i']).typed_text) ∧
    (slotState ((TypingEngine.new ['H','i']).process_input ['x']).1.characters
      (TypingEngine.new ['H','i']).current_position = CharacterState.error) ∧
    (((TypingEngine.new ['H','i']).process_input ['x']).2.is_correct = false) ∧
    (((TypingEngine.new ['H','i']).process_input ['x']).2.error_occurred = true) ∧
    (((TypingEngine.new ['H','i']).process_input ['x']).2.is_complete = false) :=
  C4_wrong_char _ 'x' (Reachable.new ['H','i']) rfl (by decide) (by decide)
    (by decide)

/-- C5 counterexample: a backspace on a fresh (not complete) engine with the
cursor at 0 reports `is_correct = false`, refuting the claim that every
backspace processed while the session is not complete reports
`is_correct = true`. -/
theorem C5_counterexample :
    ((TypingEngine.new ['H','i']).is_complete = false) ∧
    (((TypingEngine.new ['H','i']).process_input ['\x08']).2.is_correct = false) := by
  decide

/-- C5 (amended): every backspace processed while the session is not complete
reports `error_occurred=false`; when `current_position = 0` it is a no-op
whose Result has `is_correct=false`, and otherwise it reports
`is_correct=true`, decrements `current_position` by one, truncates
`typed_text` by one character, sets the slot at the new `current_position` to
Current and the slot that was current back to Undefined. -/
theorem C5_amended_backspace (e : TypingEngine) (h : Reachable e)
    (hc : e.is_complete = false) :
    ((e.process_input ['\x08']).2.error_occurred = false) ∧
    (e.current_position = 0 →
      e.process_input ['\x08'] = (e, e.create_result false false false)) ∧
    (0 < e.current_position →
      ((e.process_input ['\x08']).1.current_position = e.current_position - 1) ∧
      ((e.process_input ['\x08']).1.typed_text = e.typed_text.dropLast) ∧
      (slotState (e.process_input ['\x08']).1.characters
        (e.current_position - 1) = CharacterState.current) ∧
      (slotState (e.process_input ['\x08']).1.characters
        e.current_position = CharacterState.undefined) ∧
      ((e.process_input ['\x08']).2.is_correct = true)) := by
  obtain ⟨hlen, hple, htyped, hbelow, habove, hat, hemp, hend⟩ := h.inv
  have hred : e.process_input ['\x08'] = e.handle_backspace := by
    simp [TypingEngine.process_input, hc]
  rw [hred]
  by_cases h0 : e.current_position = 0
  · have hb : e.handle_backspace = (e, e.create_result false false false) := by
      simp [TypingEngine.handle_backspace, h0]
    rw [hb]
    exact ⟨rfl, fun _ => rfl, fun hpos => absurd h0 (by omega)⟩
  · have hp0 : 0 < e.current_position := Nat.pos_of_ne_zero h0
    have hpL : e.current_position < e.target_text.length := by
      rcases Nat.lt_or_ge e.current_position e.target_text.length with hlt | hge
      · exact hlt
      · have hpe : e.current_position = e.target_text.length := by omega
        have hne : e.target_text ≠ [] := by
          intro h'
          rw [h'] at hpe
          simp at hpe
          omega
        rw [hend hpe hne] at hc
        exact absurd hc (by simp)
    have htne : e.typed_text ≠ [] := by
      rw [htyped]
      intro h'
      have hlt := congrArg List.length h'
      rw [List.length_take] at hlt
      simp only [List.length_nil] at hlt
      omega
    have hprev : e.current_position - 1 < e.characters.length := by omega
    have h2 : e.current_position - 1 + 1 < e.characters.length := by omega
    have hbstate : e.handle_backspace =
        ({ e with
            current_position := e.current_position - 1,
            typed_text := e.typed_text.dropLast,
            characters := modifyState
              (modifyState e.characters (e.current_position - 1)
                CharacterState.current)
              (e.current_position - 1 + 1) CharacterState.undefined },
          TypingEngine.create_result
            { e with
              current_position := e.current_position - 1,
              typed_text := e.typed_text.dropLast,
              characters := modifyState
                (modifyState e.characters (e.current_position - 1)
                  CharacterState.current)
                (e.current_position - 1 + 1) CharacterState.undefined }
            true false false) := by
      simp [TypingEngine.handle_backspace, h0, htne, hprev, h2]
    rw [hbstate]
    refine ⟨rfl, fun hz => absurd hz h0, fun _ => ⟨rfl, rfl, ?_, ?_, rfl⟩⟩
    · rw [slotState_modifyState_ne _ (by omega), slotState_modifyState_self hprev]
    · rw [show e.current_position - 1 + 1 = e.current_position by omega,
        slotState_modifyState_self (by rw [length_modifyState]; omega)]

/-- C5 witness: backspace after one correct keystroke on target "Hi" moves
the cursor back to 0 and reports `is_correct = true`. -/
theorem C5_witness :
    ((((TypingEngine.new ['H','i']).process_input ['H']).1.process_input
        ['\x08']).1.current_position =
      ((TypingEngine.new ['H','i']).process_input ['H']).1.current_position - 1) ∧
    ((((TypingEngine.new ['H','i']).process_input ['H']).1.process_input
        ['\x08']).2.is_correct = true) := by
  have h := C5_amended_backspace _
    (Reachable.input ['H'] (Reachable.new ['H','i'])) (by decide)
  have h3 := h.2.2 (by decide)
  exact ⟨h3.1, h3.2.2.2.2⟩

/-- C6: word-mode reset never modifies `error_count`; with the cursor at 0 it
is a no-op returning the false signal; with the cursor past 0 it returns
true, rewinds the cursor to the word start obtained by scanning backward
from `current_position - 1` while the preceding character is not a space
(so the boundary is position 0 or is preceded by a space, and no character
between the boundary and `current_position - 1` is a space), truncates
`typed_text` to that boundary, makes the boundary slot Current and resets
every slot after the boundary to Undefined. -/
theorem C6_word_reset (e : TypingEngine) (h : Reachable e) :
    ((e.reset "word").error_count = e.error_count) ∧
    (e.current_position = 0 →
      e.reset "word" = e ∧ e.reset_current_word.2 = false) ∧
    (0 < e.current_position →
      e.reset_current_word.2 = true ∧
      ((e.reset "word").current_position =
        TypingEngine.wordStartAux e.target_text (e.current_position - 1)) ∧
      ((e.reset "word").typed_text = e.typed_text.take
        (TypingEngine.wordStartAux e.target_text (e.current_position - 1))) ∧
      (TypingEngine.wordStartAux e.target_text (e.current_position - 1) = 0 ∨
        e.target_text.getD
          (TypingEngine.wordStartAux e.target_text (e.current_position - 1) - 1)
          ' ' = ' ') ∧
      (∀ k, TypingEngine.wordStartAux e.target_text (e.current_position - 1) ≤ k →
        k < e.current_position - 1 → e.target_text.getD k ' ' ≠ ' ') ∧
      (slotState (e.reset "word").characters
        (TypingEngine.wordStartAux e.target_text (e.current_position - 1)) =
        CharacterState.current) ∧
      (∀ i, TypingEngine.wordStartAux e.target_text (e.current_position - 1) < i →
        i < (e.reset "word").characters.length →
        slotState (e.reset "word").characters i = CharacterState.undefined)) := by
  obtain ⟨hlen, hple, htyped, hbelow, habove, hat, hemp, hend⟩ := h.inv
  have hw : e.reset "word" = e.reset_current_word.1 := by
    unfold TypingEngine.reset
    rw [if_neg (by decide), if_pos rfl]
  by_cases h0 : e.current_position = 0
  · have hr : e.reset_current_word = (e, false) := by
      simp [TypingEngine.reset_current_word, h0]
    rw [hw, hr]
    exact ⟨rfl, fun _ => ⟨rfl, rfl⟩, fun hpos => absurd h0 (by omega)⟩
  · have hp0 : 0 < e.current_position := Nat.pos_of_ne_zero h0
    have hws_le : TypingEngine.wordStartAux e.target_text (e.current_position - 1) ≤
        e.current_position - 1 := wordStartAux_le _ _
    have hwsL : TypingEngine.wordStartAux e.target_text (e.current_position - 1) <
        e.target_text.length := by omega
    have hwsC : TypingEngine.wordStartAux e.target_text (e.current_position - 1) <
        e.characters.length := by omega
    have hwsCm : TypingEngine.wordStartAux e.target_text (e.current_position - 1) <
        (TypingEngine.resetFromAux e.characters
          (TypingEngine.wordStartAux e.target_text (e.current_position - 1))).length := by
      rw [length_resetFromAux]
      omega
    have hr : e.reset_current_word =
        ({ e with
            typed_text := e.typed_text.take
              (TypingEngine.wordStartAux e.target_text (e.current_position - 1)),
            current_position :=
              TypingEngine.wordStartAux e.target_text (e.current_position - 1),
            characters := modifyState
              (TypingEngine.resetFromAux e.characters
                (TypingEngine.wordStartAux e.target_text (e.current_position - 1)))
              (TypingEngine.wordStartAux e.target_text (e.current_position - 1))
              CharacterState.current },
          true) := by
      simp [TypingEngine.reset_current_word, h0, hwsC]
    rw [hw, hr]
    refine ⟨rfl, fun hz => absurd hz h0, fun _ => ⟨rfl, rfl, rfl,
      wordStartAux_boundary e.target_text (e.current_position - 1),
      wordStartAux_no_space e.target_text (e.current_position - 1), ?_, ?_⟩⟩
    · exact slotState_modifyState_self hwsCm _
    · intro i hi hl
      rw [length_modifyState, length_resetFromAux] at hl
      rw [slotState_modifyState_ne _ (by omega),
        slotState_resetFromAux_ge (by omega) hl]

/-- C6 witness: on target "ab cd" with the cursor at 3 (after typing "ab "),
the word reset rewinds fully to position 0 with empty typed text and leaves
`error_count` unchanged. -/
theorem C6_witness :
    ((((((TypingEngine.new ['a','b',' ','c','d']).process_input ['a']).1.process_input
        ['b']).1.process_input [' ']).1.reset "word").current_position = 0) ∧
    ((((((TypingEngine.new ['a','b',' ','c','d']).process_input ['a']).1.process_input
        ['b']).1.process_input [' ']).1.reset "word").typed_text = []) ∧
    ((((((TypingEngine.new ['a','b',' ','c','d']).process_input ['a']).1.process_input
        ['b']).1.process_input [' ']).1.reset "word").error_count =
      ((((TypingEngine.new ['a','b',' ','c','d']).process_input ['a']).1.process_input
        ['b']).1.process_input [' ']).1.error_count) := by
  have h := C6_word_reset _
    (Reachable.input [' '] (Reachable.input ['b'] (Reachable.input ['a']
      (Reachable.new ['a','b',' ','c','d']))))
  have h3 := h.2.2 (by decide)
  refine ⟨?_, ?_, h.1⟩
  · rw [h3.2.1]
    decide
  · rw [h3.2.2.1]
    decide

/-- C9 counterexample: after completing the one-character target "a" and
calling `reset("word")`, `is_complete` is still true but `typed_text` is
empty while the target is "a", so `is_complete` does not imply
`typed_text = target_text`. -/
theorem C9_counterexample :
    ((((TypingEngine.new ['a']).process_input ['a']).1.reset "word").is_complete
      = true) ∧
    ((((TypingEngine.new ['a']).process_input ['a']).1.reset "word").typed_text
      = []) ∧
    ((((TypingEngine.new ['a']).process_input ['a']).1.reset "word").target_text
      = ['a']) := by
  decide

/-- C9 (amended): for every reachable engine state, `typed_text` equals the
prefix `target_text[0:current_position]`, hence `len(typed_text) =
current_position`; and whenever `current_position = len(target_text)` (rather
than whenever `is_complete` holds) `typed_text` equals `target_text`. -/
theorem C9_amended_typed_prefix (e : TypingEngine) (h : Reachable e) :
    (e.typed_text = e.target_text.take e.current_position) ∧
    (e.typed_text.length = e.current_position) ∧
    (e.current_position = e.target_text.length →
      e.typed_text = e.target_text) := by
  obtain ⟨hlen, hple, htyped, hbelow, habove, hat, hemp, hend⟩ := h.inv
  refine ⟨htyped, ?_, ?_⟩
  · rw [htyped, List.length_take]
    omega
  · intro hpe
    rw [htyped, hpe, List.take_length]

/-- C9 witness: the prefix invariant at the reachable state after one correct
keystroke on target "Hi". -/
theorem C9_witness :
    ((((TypingEngine.new ['H','i']).process_input ['H']).1.process_input
        ['i']).1.typed_text =
      (((TypingEngine.new ['H','i']).process_input ['H']).1.process_input
        ['i']).1.target_text.take
        (((TypingEngine.new ['H','i']).process_input ['H']).1.process_input
          ['i']).1.current_position) ∧
    ((((TypingEngine.new ['H','i']).process_input ['H']).1.process_input
        ['i']).1.typed_text.length =
      (((TypingEngine.new ['H','i']).process_input ['H']).1.process_input
        ['i']).1.current_position) ∧
    ((((TypingEngine.new ['H','i']).process_input ['H']).1.process_input
        ['i']).1.typed_text =
      (((TypingEngine.new ['H','i']).process_input ['H']).1.process_input
        ['i']).1.target_text) :=
  have h := C9_amended_typed_prefix _
    (Reachable.input ['i'] (Reachable.input ['H'] (Reachable.new ['H','i'])))
  ⟨h.1, h.2.1, h.2.2 (by decide)⟩

/-- C8: the session score computed by the code equals the specification
formula accuracy*50 + min(30, (wpm/20)*30) - min(20, hint_count*5), truncated
to an integer and clamped to [0, 100], for every session whose duration is
nonnegative. -/
theorem C8_score_formula (s : PracticeSession) (now : ℚ)
    (hd : 0 ≤ s.duration_seconds now) :
    s.calculate_score now =
      score_spec s.character_count s.word_count s.error_count s.hint_count
        (s.duration_seconds now) := by
  unfold PracticeSession.calculate_score score_spec PracticeSession.words_per_minute
    PracticeSession.accuracy
  rcases eq_or_lt_of_le hd with h0 | hpos
  · rw [← h0]
    norm_num
  · have hdm : 0 < s.duration_seconds now / 60 := div_pos hpos (by norm_num)
    rw [if_neg (not_le.mpr hdm)]

/-- C8 witness: the score theorem applied to the concrete session with 10
characters, 2 words, 1 error, 1 hint and duration 30 seconds. -/
theorem C8_witness :
    (0 ≤ PracticeSession.duration_seconds
        { start_time := 0, end_time := some 30, error_count := 1,
          hint_count := 1, character_count := 10, word_count := 2 } 100) ∧
    (PracticeSession.calculate_score
        { start_time := 0, end_time := some 30, error_count := 1,
          hint_count := 1, character_count := 10, word_count := 2 } 100 =
      score_spec 10 2 1 1
        (PracticeSession.duration_seconds
          { start_time := 0, end_time := some 30, error_count := 1,
            hint_count := 1, character_count := 10, word_count := 2 } 100)) := by
  constructor
  · norm_num [PracticeSession.duration_seconds]
  · exact C8_score_formula _ 100 (by norm_num [PracticeSession.duration_seconds])

/-- C10: whenever a session exists (as after any `start_session` call), every
`get_formatted_stats` call fails with an AttributeError coming from the
`show_timer` attribute read, because the `PracticeSession` dataclass declares
no `show_timer` field; the formatted statistics string is therefore
unreachable while a session exists. -/
theorem C10_formatted_stats_attribute_error (c : StatsCollector)
    (s : PracticeSession) (now : ℚ) (h : c.session = some s) :
    c.get_formatted_stats now =
      Except.error "AttributeError: PracticeSession has no attribute show_timer" := by
  unfold StatsCollector.get_formatted_stats
  rw [h]
  rfl

/-- C10 witness: the AttributeError theorem applied to a collector on which
`start_session` has just been called. -/
theorem C10_witness :
    ((⟨none, false⟩ : StatsCollector).start_session ['a','b'] 0).get_formatted_stats
        5 =
      Except.error "AttributeError: PracticeSession has no attribute show_timer" :=
  C10_formatted_stats_attribute_error _ _ 5 rfl

end AnkiTyping
